import Mathlib

/-!
# Verification of the Facebook Ads MCP server core

Shallow embedding of the two logic-bearing components of the repository:

* `facebook_client.py` — the cursor-following pagination client
  (`_make_request`, `_make_paginated_request`, and the endpoint wrappers
  `get_campaigns`, `get_account_insights`, …), together with models of the
  `urllib.parse` library functions it calls (`urlparse`, `parse_qsl`) and of
  Python's `str.startswith`.
* `server.py` — the `get_account_insights` MCP tool, which post-processes the
  client's aggregated rows through a `FacebookDataProcessor`.  The processor's
  source file (`data_processor.py`) is not part of the snapshot, so its two
  transforms are modelled from the specification (see the doc comments on
  `flatten_record` and `convert_numeric_fields`).

Python dictionaries are modelled as association lists (insertion-ordered, keys
unique by construction of the operations used), JSON values as the inductive
type `JVal`, and the upstream HTTP collaborator as a pure function from
endpoint and query parameters to an HTTP result.
-/

set_option autoImplicit false

namespace FBAds

/-- A JSON value, the shape of data stored in rows returned by the API.
Floating-point numbers are modelled as rationals. -/
inductive JVal where
  | str (s : String)
  | int (n : Int)
  | float (q : Rat)
  | bool (b : Bool)
  | obj (fields : List (String × JVal))
  | arr (elems : List JVal)
  | null

/-- A row (Python `dict`) returned by the API: an insertion-ordered mapping
from field names to JSON values. -/
abbrev Record := List (String × JVal)

/-- Query parameters of an HTTP request (a Python `dict` of strings). -/
abbrev Params := List (String × String)

/-- Lookup in an association list, modelling Python `d.get(k)` /
`k in d`. -/
def alist_lookup {α : Type} (l : List (String × α)) (k : String) : Option α :=
  (l.find? (fun p => p.1 == k)).map (·.2)

/-- Modelling Python `d[k] = v` on a dict represented as an association
list: overwrite the value in place if the key is present, else append. -/
def alist_set {α : Type} (l : List (String × α)) (k : String) (v : α) :
    List (String × α) :=
  if l.any (fun p => p.1 == k) then
    l.map (fun p => if p.1 == k then (p.1, v) else p)
  else l ++ [(k, v)]

/-! ## Models of the `urllib.parse` library functions used by the client

`_make_paginated_request` turns the `paging.next` URL back into query
parameters via `urllib.parse.urlparse` (take the query component) and
`urllib.parse.parse_qsl` (split on `&`, split each field at the first `=`,
drop fields without `=` or with an empty value, percent-decode and turn `+`
into a space), finally `dict(...)` keeps the last value for a repeated key.
These are library functions, modelled here after their documented behaviour
on the character sequence of the URL. -/

/-- Everything after the first occurrence of `sep`, or `none` when `sep`
does not occur. -/
def afterFirst (sep : Char) : List Char → Option (List Char)
  | [] => none
  | c :: cs => if c = sep then some cs else afterFirst sep cs

/-- Model of the query component extracted by `urllib.parse.urlparse`:
strip the fragment (everything from the first `#`), then take everything
after the first `?`; empty when there is no `?`. -/
def urlparse_query (cs : List Char) : List Char :=
  (afterFirst '?' (cs.takeWhile (fun c => c != '#'))).getD []

/-- Auxiliary splitter: `splitOnCharAux sep cs acc` with `acc` the reversed
current field. -/
def splitOnCharAux (sep : Char) : List Char → List Char → List (List Char)
  | [], acc => [acc.reverse]
  | c :: cs, acc =>
    if c = sep then acc.reverse :: splitOnCharAux sep cs []
    else splitOnCharAux sep cs (c :: acc)

/-- Split a character list on a separator character. -/
def splitOnChar (sep : Char) (cs : List Char) : List (List Char) :=
  splitOnCharAux sep cs []

/-- Value of a hexadecimal digit, if the character is one. -/
def hexVal? (c : Char) : Option Nat :=
  if '0' ≤ c ∧ c ≤ '9' then some (c.toNat - 48)
  else if 'a' ≤ c ∧ c ≤ 'f' then some (c.toNat - 87)
  else if 'A' ≤ c ∧ c ≤ 'F' then some (c.toNat - 55)
  else none

/-- The recursion of `unquote_plus`, driven by a step budget so that the
recursion is structural (each step consumes at least one character, so a
budget of the input length is always enough; the base case is never
reached from the wrapper). -/
def unquote_plus_fuel : Nat → List Char → List Char
  | 0, cs => cs
  | _ + 1, [] => []
  | fuel + 1, c :: rest =>
    if c = '%' then
      match rest with
      | c1 :: c2 :: rest2 =>
        match hexVal? c1, hexVal? c2 with
        | some h1, some h2 =>
            Char.ofNat (16 * h1 + h2) :: unquote_plus_fuel fuel rest2
        | _, _ => '%' :: unquote_plus_fuel fuel (c1 :: c2 :: rest2)
      | _ => '%' :: unquote_plus_fuel fuel rest
    else if c = '+' then ' ' :: unquote_plus_fuel fuel rest
    else c :: unquote_plus_fuel fuel rest

/-- Model of `urllib.parse.unquote_plus` on the character sequence: `+`
becomes a space, `%hh` with two hex digits becomes the character with that
code, a `%` not followed by two hex digits is kept verbatim and scanning
resumes at the following character. -/
def unquote_plus (cs : List Char) : List Char :=
  unquote_plus_fuel cs.length cs

/-- One `name=value` field of a query string: the name is everything before
the first `=`, the value everything after it.  Fields without `=` and
fields with an empty value are dropped (`parse_qsl` defaults:
`strict_parsing=False`, `keep_blank_values=False`). -/
def qsl_pair (field : List Char) : Option (List Char × List Char) :=
  match afterFirst '=' field with
  | none => none
  | some value =>
      if value = [] then none
      else some (field.takeWhile (fun c => c != '='), value)

/-- Model of `urllib.parse.parse_qsl` with its default arguments. -/
def parse_qsl (cs : List Char) : List (String × String) :=
  (splitOnChar '&' cs).filterMap fun f =>
    (qsl_pair f).map fun p =>
      (String.mk (unquote_plus p.1), String.mk (unquote_plus p.2))

/-- Model of Python `dict(pairs)`: first-insertion order, last value wins
for a repeated key. -/
def dict_of (ps : List (String × String)) : Params :=
  ps.foldl (fun acc kv => alist_set acc kv.1 kv.2) []

/-- The fresh parameter mapping the pagination loop builds from a
`paging.next` URL (`facebook_client.py` lines 123–124):
`dict(urllib.parse.parse_qsl(urllib.parse.urlparse(next_url).query))`. -/
def parse_next_params (url : String) : Params :=
  dict_of (parse_qsl (urlparse_query url.data))

/-! ## The HTTP layer: `_make_request` -/

/-- The response body of a successful (2xx) request, as far as the client
inspects it: an optional `data` list of rows (`response.get('data', [])`)
and an optional `paging` object with an optional `next` URL
(`'paging' in response and 'next' in response['paging']`). -/
structure Paging where
  next? : Option String

structure FBResponse where
  data? : Option (List Record)
  paging? : Option Paging

/-- What `response.json()` yields on a non-2xx response, as far as the
error handler of `_make_request` inspects it.  The numeric `code` and
`error_subcode` fields are modelled by their rendered string forms, which
is all the f-string interpolation uses. -/
inductive ParsedBody where
  | notJson
  | jsonNoError
  | jsonError (code : Option String) (message : Option String)
      (subcode : Option String)

/-- Outcome of one HTTP GET as seen by `_make_request`: either a 2xx
response with a JSON body, or an `HTTPError` raised by
`raise_for_status()`, carrying the exception's rendered text and the
result of attempting to parse the response body. -/
inductive HttpResult where
  | ok (body : FBResponse)
  | httpError (errStr : String) (body : ParsedBody)

/-- The upstream HTTP collaborator: a pure function from endpoint and query
parameters (with the access token attached) to an HTTP result. -/
abbrev RawServer := String → Params → HttpResult

/-- The error message construction of `_make_request` (lines 78–91):
start from the generic `Facebook API request failed: {e}`; if the body is
JSON with an `error` object, replace it by
`Facebook API Error {code}: {message}` with defaults `Unknown` and
`str(e)`, appending ` (Subcode: {s})` when `error_subcode` is present.
A parse failure is swallowed by the bare `except: pass`, keeping the
generic message — the function is total, no secondary error escapes. -/
def format_http_error (errStr : String) (body : ParsedBody) : String :=
  match body with
  | .notJson => "Facebook API request failed: " ++ errStr
  | .jsonNoError => "Facebook API request failed: " ++ errStr
  | .jsonError code message subcode =>
      let base := "Facebook API Error " ++ code.getD "Unknown" ++ ": "
        ++ message.getD errStr
      match subcode with
      | some sub => base ++ " (Subcode: " ++ sub ++ ")"
      | none => base

/-- `_make_request` (lines 52–92): attach the access token as a query
parameter, perform the GET, return the JSON body on success and raise a
`RequestException` carrying the formatted message otherwise. -/
def make_request (server : RawServer) (token : String) (endpoint : String)
    (params : Params) : Except String FBResponse :=
  match server endpoint (alist_set params "access_token" token) with
  | .ok body => .ok body
  | .httpError errStr body => .error (format_http_error errStr body)

/-! ## The pagination loop: `_make_paginated_request` -/

/-- Outcome of `_make_paginated_request`.  On success it carries the
combined `data` rows together with the list of HTTP requests issued
(endpoint and caller-side parameters, in order) — the latter is ghost
instrumentation recording the trace of `_make_request` calls, each of which
performs exactly one GET.  `httpFail` is the propagated `RequestException`;
note it carries no rows.  `outOfFuel` represents a run longer than the
step bound of the embedding (the Python loop has no bound and would still
be running). -/
inductive PagerOutcome where
  | ok (rows : List Record) (requests : List (String × Params))
  | httpFail (msg : String)
  | outOfFuel

/-- The `while 'paging' in response and 'next' in response['paging']` loop
(lines 121–126): while the current response carries a `next` URL, parse it
into fresh parameters, request the same endpoint with them, and extend the
accumulator with the new response's rows. -/
def paginate_go (server : RawServer) (token endpoint : String) :
    Nat → FBResponse → List Record → List (String × Params) → PagerOutcome
  | fuel, response, all_data, reqs =>
    match response.paging? with
    | none => .ok all_data reqs
    | some paging =>
      match paging.next? with
      | none => .ok all_data reqs
      | some next_url =>
        match fuel with
        | 0 => .outOfFuel
        | fuel' + 1 =>
          let next_params := parse_next_params next_url
          match make_request server token endpoint next_params with
          | .error msg => .httpFail msg
          | .ok response' =>
              paginate_go server token endpoint fuel' response'
                (all_data ++ response'.data?.getD [])
                (reqs ++ [(endpoint, next_params)])

/-- `_make_paginated_request` (lines 94–128): one initial request, then the
cursor-following loop; returns the concatenation of every page's rows. -/
def make_paginated_request (server : RawServer) (token : String) (fuel : Nat)
    (endpoint : String) (params : Params) : PagerOutcome :=
  match make_request server token endpoint params with
  | .error msg => .httpFail msg
  | .ok response =>
      paginate_go server token endpoint fuel response
        (response.data?.getD []) [(endpoint, params)]

/-! ## Endpoint wrappers -/

/-- Model of Python `s.startswith(pre)`: `pre` is a prefix of the character
sequence of `s`. -/
def startswith (s pre : String) : Bool :=
  pre.data.isPrefixOf s.data

/-- The account-id normalization appearing identically in `get_campaigns`
(lines 182–183), `get_ad_sets`, `get_ads` and `get_account_insights`
(lines 315–316): `if not account_id.startswith('act_'):
account_id = f'act_{account_id}'`. -/
def normalize_account_id (account_id : String) : String :=
  if startswith account_id "act_" then account_id else "act_" ++ account_id

/-- Model of `json.dumps` on a list of strings (used for
`effective_status` and the id filters); escaping inside the strings is not
modelled, the result is treated as an opaque parameter value. -/
def json_dumps_str_list (xs : List String) : String :=
  "[" ++ String.intercalate ", " (xs.map (fun s => "\"" ++ s ++ "\"")) ++ "]"

/-- The query parameters built by `get_campaigns` (lines 185–191). -/
def campaigns_params (effective_status : Option (List String))
    (limit : Nat) : Params :=
  let params := [("fields",
      "id,name,status,effective_status,objective,daily_budget,lifetime_budget,created_time,updated_time"),
    ("limit", toString limit)]
  match effective_status with
  | some es => params ++ [("effective_status", json_dumps_str_list es)]
  | none => params

/-- `get_campaigns` (lines 155–196): normalize the account id and issue a
paginated request against `/{account_id}/campaigns`. -/
def get_campaigns (server : RawServer) (token : String) (fuel : Nat)
    (account_id : String) (effective_status : Option (List String))
    (limit : Nat) : PagerOutcome :=
  let account_id := normalize_account_id account_id
  make_paginated_request server token fuel ("/" ++ account_id ++ "/campaigns")
    (campaigns_params effective_status limit)

/-- Model of `json.dumps({'since': start_date, 'until': end_date})`
(line 321). -/
def time_range_json (start_date end_date : String) : String :=
  "\x7b\"since\": \"" ++ start_date ++ "\", \"until\": \"" ++ end_date
    ++ "\"\x7d"

/-- Model of the `filtering` JSON built on lines 331–353: one
`{field, operator: IN, value}` object per supplied id list. -/
def filtering_entry (field : String) (ids : List String) : String :=
  "\x7b\"field\": \"" ++ field ++ "\", \"operator\": \"IN\", \"value\": "
    ++ json_dumps_str_list ids ++ "\x7d"

/-- The query parameters built by `get_account_insights`
(lines 318–353). -/
def insights_params (start_date end_date : String) (fields : List String)
    (level : String) (breakdowns : Option (List String))
    (time_increment : Option String)
    (campaign_ids adset_ids ad_ids : Option (List String))
    (limit : Nat) : Params :=
  let params := [("fields", String.intercalate "," fields),
    ("level", level),
    ("time_range", time_range_json start_date end_date),
    ("limit", toString limit)]
  let params := match breakdowns with
    | some bs => params ++ [("breakdowns", String.intercalate "," bs)]
    | none => params
  let params := match time_increment with
    | some ti => params ++ [("time_increment", ti)]
    | none => params
  let filtering :=
    (match campaign_ids with
      | some ids => [filtering_entry "campaign.id" ids]
      | none => [])
    ++ (match adset_ids with
      | some ids => [filtering_entry "adset.id" ids]
      | none => [])
    ++ (match ad_ids with
      | some ids => [filtering_entry "ad.id" ids]
      | none => [])
  match filtering with
  | [] => params
  | _ => params ++ [("filtering",
      "[" ++ String.intercalate ", " filtering ++ "]")]

/-- `get_account_insights` of `facebook_client.py` (lines 268–358):
normalize the account id and issue a paginated request against
`/{account_id}/insights`. -/
def get_account_insights (server : RawServer) (token : String) (fuel : Nat)
    (account_id start_date end_date : String) (fields : List String)
    (level : String) (breakdowns : Option (List String))
    (time_increment : Option String)
    (campaign_ids adset_ids ad_ids : Option (List String))
    (limit : Nat) : PagerOutcome :=
  let account_id := normalize_account_id account_id
  make_paginated_request server token fuel ("/" ++ account_id ++ "/insights")
    (insights_params start_date end_date fields level breakdowns
      time_increment campaign_ids adset_ids ad_ids limit)

/-! ## The data processor

`server.py` imports `FacebookDataProcessor` from `data_processor.py`, a file
that is not part of the repository snapshot; only its callers are.  The two
transforms used by the `get_account_insights` tool —
`process_insights` (flattening) and `convert_numeric_fields` — are therefore
modelled from the specification (§4.2 of the spec). -/

/-- Modelled from the spec: the fixed lookup table from action-bearing
Record key to the prefix of the synthesized flat keys (`data_processor.py`
is missing from the snapshot).  "the `actions` key yields keys prefixed
`action_`, the `action_values` key yields keys prefixed `action_value_`,
the `conversions` key yields keys prefixed `conversion_`". -/
def action_key_prefixes : List (String × String) :=
  [("actions", "action_"),
   ("action_values", "action_value_"),
   ("conversions", "conversion_")]

/-- Modelled from the spec: sanitization of an `action_type` "to be a valid
flat field name" — characters that are not alphanumeric or `_` are replaced
by `_`. -/
def sanitize_action_type (s : String) : String :=
  String.mk (s.data.map fun c => if c.isAlphanum ∨ c = '_' then c else '_')

/-- Modelled from the spec: flattening of one action-bearing entry list
(`data_processor.py` is missing from the snapshot).  Each well-formed
`{action_type, value}` entry yields one flat key `prefix ++ action_type`
with the entry's value; malformed entries (not an object, or missing
`action_type` or `value`) are skipped for that entry only. -/
def flatten_entries (pre : String) (entries : List JVal) :
    List (String × JVal) :=
  entries.filterMap fun e =>
    match e with
    | .obj fields =>
      match alist_lookup fields "action_type", alist_lookup fields "value" with
      | some (.str at_), some v =>
          some (pre ++ sanitize_action_type at_, v)
      | _, _ => none
    | _ => none

/-- Modelled from the spec: the per-record flattening transform of
`FacebookDataProcessor` (`data_processor.py` is missing from the snapshot).
Keys in the fixed action-bearing set are replaced by the flat keys
synthesized from their entries (the original nested key is removed from the
output Record); keys outside the set pass through unchanged. -/
def flatten_record (r : Record) : Record :=
  r.flatMap fun kv =>
    match alist_lookup action_key_prefixes kv.1 with
    | none => [kv]
    | some pre =>
      match kv.2 with
      | .arr entries => flatten_entries pre entries
      | _ => []

/-- Modelled from the spec: `FacebookDataProcessor.process_insights`
(`data_processor.py` is missing from the snapshot) — flatten every row of
the Pager's aggregated result; a pure per-record transform. -/
def process_insights (rows : List Record) : List Record :=
  rows.map flatten_record

/-- Result of lexically parsing a textual field value as a number:
an integer (no fractional part, no exponent) or a float (modelled as a
rational). -/
inductive NumVal where
  | int (n : Int)
  | float (q : Rat)

/-- Numeric value of a digit string. -/
def digitsToNat (ds : List Char) : Nat :=
  ds.foldl (fun acc c => acc * 10 + (c.toNat - 48)) 0

/-- Optional leading sign; `true` means negative. -/
def parse_sign : List Char → Bool × List Char
  | '-' :: rest => (true, rest)
  | '+' :: rest => (false, rest)
  | cs => (false, cs)

/-- The rational `10^n`. -/
def pow10 (n : Nat) : Rat := ((10 ^ n : Nat) : Rat)

/-- The rational `±(intDs.fracDs)·10^exp`. -/
def ratOfParts (neg : Bool) (intDs fracDs : List Char) (exp : Int) : Rat :=
  let mantissa : Rat := (digitsToNat (intDs ++ fracDs) : Nat)
  let q := match exp with
    | .ofNat e => mantissa * pow10 e / pow10 fracDs.length
    | .negSucc e => mantissa / (pow10 fracDs.length * pow10 (e + 1))
  if neg then -q else q

/-- Modelled from the spec: the lexical number recognizer of
`FacebookDataProcessor.convert_numeric_fields` (`data_processor.py` is
missing from the snapshot).  Accepts `[+|-] digits [. digits]
[(e|E) [+|-] digits]`; "integer representation when the text has no
fractional part and no exponent, otherwise floating-point
representation". -/
def parse_numeric (s : String) : Option NumVal :=
  let (neg, cs1) := parse_sign s.data
  let intDs := cs1.takeWhile (·.isDigit)
  let cs2 := cs1.dropWhile (·.isDigit)
  if intDs = [] then none
  else
    let intVal : Int := if neg then -(digitsToNat intDs : Int)
      else (digitsToNat intDs : Int)
    match cs2 with
    | [] => some (.int intVal)
    | '.' :: cs3 =>
      let fracDs := cs3.takeWhile (·.isDigit)
      let cs4 := cs3.dropWhile (·.isDigit)
      if fracDs = [] then none
      else
        match cs4 with
        | [] => some (.float (ratOfParts neg intDs fracDs 0))
        | e :: cs5 =>
          if e = 'e' ∨ e = 'E' then
            let (eneg, cs6) := parse_sign cs5
            let expDs := cs6.takeWhile (·.isDigit)
            let cs7 := cs6.dropWhile (·.isDigit)
            if expDs = [] ∨ cs7 ≠ [] then none
            else
              let expVal : Int := if eneg then -(digitsToNat expDs : Int)
                else (digitsToNat expDs : Int)
              some (.float (ratOfParts neg intDs fracDs expVal))
          else none
    | e :: cs3 =>
      if e = 'e' ∨ e = 'E' then
        let (eneg, cs4) := parse_sign cs3
        let expDs := cs4.takeWhile (·.isDigit)
        let cs5 := cs4.dropWhile (·.isDigit)
        if expDs = [] ∨ cs5 ≠ [] then none
        else
          let expVal : Int := if eneg then -(digitsToNat expDs : Int)
            else (digitsToNat expDs : Int)
          some (.float (ratOfParts neg intDs [] expVal))
      else none

/-- Modelled from the spec: conversion of one field value — a textual value
that lexically represents a number is replaced by its numeric value; values
that are already numeric, boolean, nested, or non-numeric text are left
untouched. -/
def convert_value (v : JVal) : JVal :=
  match v with
  | .str s =>
    match parse_numeric s with
    | some (.int n) => .int n
    | some (.float q) => .float q
    | none => .str s
  | _ => v

/-- Modelled from the spec: `FacebookDataProcessor.convert_numeric_fields`
(`data_processor.py` is missing from the snapshot), applied per record to
the top-level field values. -/
def convert_numeric_fields (rows : List Record) : List Record :=
  rows.map fun r => r.map fun kv => (kv.1, convert_value kv.2)

/-! ## The `get_account_insights` MCP tool of `server.py` -/

/-- Outcome of the tool call: the returned row list, a propagated
exception, or a run exceeding the step bound of the embedding. -/
inductive ToolOutcome where
  | rows (rs : List Record)
  | fail (msg : String)
  | noFuel

/-- The `get_account_insights` tool of `server.py` (lines 209–399): call
the client, then — `if flatten_actions:` — apply `process_insights`
followed by `convert_numeric_fields`, `else` return
`response.get('data', [])` unmodified.  The client is called with its
default `limit` of 100. -/
def get_account_insights_tool (server : RawServer) (token : String)
    (fuel : Nat) (account_id start_date end_date : String)
    (fields : List String) (level : String)
    (breakdowns : Option (List String)) (time_increment : Option String)
    (campaign_ids adset_ids ad_ids : Option (List String))
    (flatten_actions : Bool) : ToolOutcome :=
  match get_account_insights server token fuel account_id start_date end_date
      fields level breakdowns time_increment campaign_ids adset_ids ad_ids
      100 with
  | .httpFail msg => .fail msg
  | .outOfFuel => .noFuel
  | .ok rows _ =>
    if flatten_actions then
      .rows (convert_numeric_fields (process_insights rows))
    else
      .rows rows

/-! ## Simulated upstreams

To state the pagination properties we build concrete pure servers:
a *chain server* serving `N` pages linked by `paging.next` cursor URLs
(with an optional page made to fail with a non-2xx status), and a server
transformer dropping the `data` key from every response. -/

/-- The cursor value identifying page `j` of the chain: `j` letters `a`
(an opaque token, as the spec demands). -/
def aStr (j : Nat) : String := String.mk (List.replicate j 'a')

/-- The endpoint the simulated chain is served under. -/
def chainEndpoint : String := "/me/adaccounts"

/-- The `paging.next` URL pointing at page `j` (`j ≥ 1`):
`https://fb/next?after=` followed by the cursor for page `j`. -/
def chainUrl (j : Nat) : String :=
  String.mk ("https://fb/next".data ++ '?' ::
    ("after".data ++ '=' :: List.replicate j 'a'))

/-- Decode a cursor value back into a page index: a nonempty string of
`a`s of length `j` denotes page `j`. -/
def decode_after (v : String) : Option Nat :=
  if v.data ≠ [] ∧ v.data = List.replicate v.data.length 'a' then
    some v.data.length
  else none

/-- The body of page `j`: its rows under `data`, and a `paging` object
whose `next` is the URL of page `j+1` — absent on the last page. -/
def chainResponse (pages : List (List Record)) (j : Nat) : FBResponse :=
  { data? := some (pages.getD j []),
    paging? := some
      { next? := if j + 1 < pages.length then some (chainUrl (j + 1))
          else none } }

/-- How the chain upstream answers a request for page `j`: a 500 error
when `j` is the designated failing page, the page body when `j` is in
range, a 404 otherwise. -/
def chainServe (pages : List (List Record)) (failAt : Option Nat)
    (j : Nat) : HttpResult :=
  if failAt = some j then
    .httpError "500 Server Error"
      (.jsonError (some "1") (some "An unknown error occurred") none)
  else if j < pages.length then .ok (chainResponse pages j)
  else .httpError "404 Client Error" .notJson

/-- A simulated upstream serving `pages.length` pages chained by
`paging.next` cursors: a request without an `after` parameter gets page 0,
a request whose `after` parameter is the cursor of page `j` gets page `j`.
When `failAt = some j`, the request for page `j` instead returns a non-2xx
status. -/
def chainServer (pages : List (List Record)) (failAt : Option Nat) :
    RawServer := fun ep ps =>
  if ep = chainEndpoint then
    match alist_lookup ps "after" with
    | none => chainServe pages failAt 0
    | some v =>
      match decode_after v with
      | some j => chainServe pages failAt j
      | none => .httpError "400 Client Error" .notJson
  else .httpError "404 Client Error" .notJson

/-- The request trace a complete crawl of the chain produces: the initial
request with empty parameters, then one request per further page carrying
that page's cursor. -/
def chainTrace (pages : List (List Record)) : List (String × Params) :=
  (List.range pages.length).map fun j =>
    (chainEndpoint, if j = 0 then ([] : Params) else [("after", aStr j)])

/-- The error message the chain upstream's failing page produces, as
formatted by `_make_request`. -/
def chainFailMsg : String :=
  format_http_error "500 Server Error"
    (.jsonError (some "1") (some "An unknown error occurred") none)

/-- Replace a missing `data` key by an explicitly empty one. -/
def fill_data_response (r : FBResponse) : FBResponse :=
  { r with data? := some (r.data?.getD []) }

/-- Server transformer: identical responses except that a missing `data`
key becomes an explicit empty `data` list. -/
def fill_data_server (server : RawServer) : RawServer := fun ep ps =>
  match server ep ps with
  | .ok r => .ok (fill_data_response r)
  | e => e

/-- The `next` URL the loop condition of `_make_paginated_request` reads:
present exactly when the response has a `paging` object containing a
`next` entry. -/
def nextUrlOf (r : FBResponse) : Option String :=
  match r.paging? with
  | none => none
  | some paging => paging.next?

/-- The spec-side description of a follow-up request trace: starting from
response `resp`, either the loop stops because `resp` carries no `next`
URL, or `resp` carries `next` URL `u`, the next request is issued against
the *same* endpoint with parameters obtained *solely* by parsing `u` (the
previous request's parameters do not occur), and the rest of the trace
continues from that request's response. -/
inductive CursorChain (server : RawServer) (token endpoint : String) :
    FBResponse → List (String × Params) → Prop where
  | last {resp : FBResponse} (hnone : nextUrlOf resp = none) :
      CursorChain server token endpoint resp []
  | step {resp resp' : FBResponse} {u : String}
      {rest : List (String × Params)}
      (hnext : nextUrlOf resp = some u)
      (hreq : make_request server token endpoint (parse_next_params u)
        = .ok resp')
      (hrest : CursorChain server token endpoint resp' rest) :
      CursorChain server token endpoint resp
        ((endpoint, parse_next_params u) :: rest)

/-! ## Helper lemmas -/

theorem isPrefixOf_append_self (l t : List Char) :
    l.isPrefixOf (l ++ t) = true := by
  induction l with
  | nil => simp [List.isPrefixOf]
  | cons c cs ih => simp [List.isPrefixOf, ih]

theorem startswith_append (pre s : String) :
    startswith (pre ++ s) pre = true := by
  simp [startswith, String.data_append, isPrefixOf_append_self]

/-- C9 — Account-id normalization: an id lacking the `act_` prefix gets it
prepended exactly once; an id already carrying it passes through
unchanged; the result always carries the prefix and normalizing again
changes nothing (the prefix is never doubled); and both `get_campaigns`
and `get_account_insights` treat an id and its normalized form
identically, since the endpoint path is built from the normalized id. -/
theorem account_id_normalization (account_id : String) :
    (startswith account_id "act_" = false →
      normalize_account_id account_id = "act_" ++ account_id) ∧
    (startswith account_id "act_" = true →
      normalize_account_id account_id = account_id) ∧
    startswith (normalize_account_id account_id) "act_" = true ∧
    normalize_account_id (normalize_account_id account_id)
      = normalize_account_id account_id ∧
    (∀ (server : RawServer) (token : String) (fuel : Nat)
      (effective_status : Option (List String)) (limit : Nat),
      get_campaigns server token fuel (normalize_account_id account_id)
          effective_status limit
        = get_campaigns server token fuel account_id
          effective_status limit) ∧
    (∀ (server : RawServer) (token : String) (fuel : Nat)
      (start_date end_date : String) (fields : List String) (level : String)
      (breakdowns : Option (List String)) (time_increment : Option String)
      (campaign_ids adset_ids ad_ids : Option (List String)) (limit : Nat),
      get_account_insights server token fuel
          (normalize_account_id account_id) start_date end_date fields level
          breakdowns time_increment campaign_ids adset_ids ad_ids limit
        = get_account_insights server token fuel account_id start_date
          end_date fields level breakdowns time_increment campaign_ids
          adset_ids ad_ids limit) := by
  have hpre : startswith (normalize_account_id account_id) "act_" = true := by
    unfold normalize_account_id
    by_cases h : startswith account_id "act_" = true
    · simp [h]
    · simp [h, startswith_append]
  have hidem : normalize_account_id (normalize_account_id account_id)
      = normalize_account_id account_id := by
    by_cases h : startswith account_id "act_" = true
    · simp [normalize_account_id, h]
    · simp [normalize_account_id, h, startswith_append]
  refine ⟨fun h => by simp [normalize_account_id, h], fun h => by
    simp [normalize_account_id, h], hpre, hidem, ?_, ?_⟩
  · intro server token fuel effective_status limit
    simp only [get_campaigns, hidem]
  · intro server token fuel start_date end_date fields level breakdowns
      time_increment campaign_ids adset_ids ad_ids limit
    simp only [get_account_insights, hidem]

/-- C9 witness: concrete instances — `"123"` lacks the prefix and gets it
prepended, `"act_123"` carries it and is unchanged. -/
theorem account_id_normalization_witness :
    (startswith "123" "act_" = false ∧
      normalize_account_id "123" = "act_" ++ "123") ∧
    (startswith "act_123" "act_" = true ∧
      normalize_account_id "act_123" = "act_123") :=
  ⟨⟨by decide, (account_id_normalization "123").1 (by decide)⟩,
   ⟨by decide, (account_id_normalization "act_123").2.1 (by decide)⟩⟩

/-- C4 — Error-message formatting of `_make_request`: on a non-2xx
response whose body is JSON with an `error` object, the raised error
carries code, message and (when present) subcode concatenated into one
descriptive string, the code defaulting to `Unknown` and the message to
the rendered HTTP failure; when the body is not parseable JSON the error
carries the generic message referencing the underlying HTTP failure.  The
formatting path is the total function `format_http_error`, so no secondary
exception can escape it. -/
theorem error_message_formatting :
    (∀ (e c m sub token endpoint : String) (ps : Params),
      make_request (fun _ _ => .httpError e
          (.jsonError (some c) (some m) (some sub))) token endpoint ps
        = .error ("Facebook API Error " ++ c ++ ": " ++ m
            ++ " (Subcode: " ++ sub ++ ")")) ∧
    (∀ (e c m token endpoint : String) (ps : Params),
      make_request (fun _ _ => .httpError e
          (.jsonError (some c) (some m) none)) token endpoint ps
        = .error ("Facebook API Error " ++ c ++ ": " ++ m)) ∧
    (∀ (e sub token endpoint : String) (ps : Params),
      make_request (fun _ _ => .httpError e
          (.jsonError none none (some sub))) token endpoint ps
        = .error ("Facebook API Error " ++ "Unknown" ++ ": " ++ e
            ++ " (Subcode: " ++ sub ++ ")")) ∧
    (∀ (e token endpoint : String) (ps : Params),
      make_request (fun _ _ => .httpError e .notJson) token endpoint ps
        = .error ("Facebook API request failed: " ++ e)) := by
  refine ⟨?_, ?_, ?_, ?_⟩ <;>
    (intros
     simp [make_request, format_http_error, String.append_assoc])

/-- C6 — Idempotence of numeric conversion, with the concrete conversions
required by the spec (`"12.50"` to the float `12.5`, `"42"` to the integer
`42`, `"abc"` unchanged) and the guarantee that values that are already
numeric, boolean, or nested are left untouched. -/
theorem convert_numeric_fields_idempotent :
    (∀ rows, convert_numeric_fields (convert_numeric_fields rows)
      = convert_numeric_fields rows) ∧
    convert_numeric_fields
        [[("spend", .str "12.50"), ("clicks", .str "42"),
          ("name", .str "abc")]]
      = [[("spend", .float (12.5 : Rat)), ("clicks", .int 42),
          ("name", JVal.str "abc")]] ∧
    (∀ n, convert_value (.int n) = .int n) ∧
    (∀ q, convert_value (.float q) = .float q) ∧
    (∀ b, convert_value (.bool b) = .bool b) ∧
    (∀ fields, convert_value (.obj fields) = .obj fields) ∧
    (∀ elems, convert_value (.arr elems) = .arr elems) ∧
    convert_value .null = .null := by
  have hval : ∀ v, convert_value (convert_value v) = convert_value v := by
    intro v
    cases v with
    | str s =>
      rcases h : parse_numeric s with - | nv
      · simp [convert_value, h]
      · cases nv <;> simp [convert_value, h]
    | _ => rfl
  have h1250 : convert_value (.str "12.50")
      = .float ((1250 : Rat) * pow10 0 / pow10 2) := rfl
  have hfloat : convert_value (.str "12.50") = .float (12.5 : Rat) := by
    rw [h1250]
    norm_num [pow10]
  refine ⟨?_, ?_, fun _ => rfl, fun _ => rfl, fun _ => rfl,
    fun _ => rfl, fun _ => rfl, rfl⟩
  case refine_2 =>
    show [[("spend", convert_value (.str "12.50")),
        ("clicks", convert_value (.str "42")),
        ("name", convert_value (.str "abc"))]] = _
    rw [hfloat]
    rfl
  intro rows
  simp only [convert_numeric_fields, List.map_map]
  refine List.map_congr_left fun r _ => ?_
  simp only [Function.comp, List.map_map]
  exact List.map_congr_left fun kv _ => by simp [Function.comp, hval]

theorem flatMap_eq_self {α : Type} (l : List α) (f : α → List α)
    (h : ∀ a ∈ l, f a = [a]) : l.flatMap f = l := by
  induction l with
  | nil => rfl
  | cons x xs ih =>
      rw [List.flatMap_cons, h x (List.mem_cons_self x xs),
        ih fun a ha => h a (List.mem_cons_of_mem x ha)]
      rfl

/-- A record entry whose key is not action-bearing passes through
`flatten_record` as itself. -/
theorem flatten_step_of_not_action (kv : String × JVal)
    (h : alist_lookup action_key_prefixes kv.1 = none) :
    (match alist_lookup action_key_prefixes kv.1 with
      | none => [kv]
      | some pre =>
        match kv.2 with
        | .arr entries => flatten_entries pre entries
        | _ => []) = [kv] := by
  rw [h]

theorem flatten_record_append_middle (pre post : Record)
    (mid : String × JVal)
    (hpre : ∀ kv ∈ pre, alist_lookup action_key_prefixes kv.1 = none)
    (hpost : ∀ kv ∈ post, alist_lookup action_key_prefixes kv.1 = none)
    (hmid : alist_lookup action_key_prefixes mid.1 = some "action_")
    (entries : List JVal) (hv : mid.2 = .arr entries) :
    flatten_record (pre ++ mid :: post)
      = pre ++ (flatten_entries "action_" entries ++ post) := by
  unfold flatten_record
  rw [List.flatMap_append, List.flatMap_cons]
  rw [flatMap_eq_self pre _ fun kv hkv =>
    flatten_step_of_not_action kv (hpre kv hkv)]
  rw [flatMap_eq_self post _ fun kv hkv =>
    flatten_step_of_not_action kv (hpost kv hkv)]
  rw [hmid, hv]

/-- C5 — Flattening correctness: a Record containing
`actions: [{"action_type": "purchase", "value": "5"}]` flattens to the
Record in which that key is replaced by `action_purchase = "5"` (the value
still the string `"5"`, before numeric conversion) and no `actions` key
remains; keys outside the fixed action-bearing set pass through
unchanged. -/
theorem flattening_correctness (pre post : Record)
    (hpre : ∀ kv ∈ pre, alist_lookup action_key_prefixes kv.1 = none)
    (hpost : ∀ kv ∈ post, alist_lookup action_key_prefixes kv.1 = none) :
    flatten_record (pre ++ ("actions", .arr
        [.obj [("action_type", .str "purchase"), ("value", .str "5")]])
        :: post)
      = pre ++ ("action_purchase", JVal.str "5") :: post := by
  rw [flatten_record_append_middle pre post ("actions", .arr
    [.obj [("action_type", .str "purchase"), ("value", .str "5")]])
    hpre hpost rfl _ rfl]
  rfl

/-- C5 witness: the concrete record
`{"spend": "3", "actions": [{"action_type": "purchase", "value": "5"}],
"clicks": "7"}`. -/
theorem flattening_correctness_witness :
    flatten_record [("spend", .str "3"), ("actions", .arr
        [.obj [("action_type", .str "purchase"), ("value", .str "5")]]),
        ("clicks", .str "7")]
      = [("spend", .str "3"), ("action_purchase", JVal.str "5"),
          ("clicks", .str "7")] :=
  flattening_correctness [("spend", .str "3")] [("clicks", .str "7")]
    (by intro kv hkv; rw [List.mem_singleton] at hkv; subst hkv; rfl)
    (by intro kv hkv; rw [List.mem_singleton] at hkv; subst hkv; rfl)

/-- C7 — Malformed-entry tolerance: an entry of an action-bearing list
that is missing `action_type` or missing `value` is skipped for that entry
only — the flattened record is exactly what it would be had the entry been
absent, so every other key and every well-formed entry is kept and the
record is not dropped (flattening is a total function; no exception
exists). -/
theorem malformed_entry_tolerance (pre post : Record) (l1 l2 : List JVal)
    (fields : List (String × JVal))
    (hbad : alist_lookup fields "action_type" = none
      ∨ alist_lookup fields "value" = none) :
    flatten_record (pre ++ ("actions", .arr (l1 ++ .obj fields :: l2))
        :: post)
      = flatten_record (pre ++ ("actions", .arr (l1 ++ l2)) :: post) := by
  unfold flatten_record
  rw [List.flatMap_append, List.flatMap_append, List.flatMap_cons,
    List.flatMap_cons]
  have hmid : ∀ es, (match alist_lookup action_key_prefixes "actions" with
      | none => [(("actions" : String), JVal.arr es)]
      | some p =>
        match JVal.arr es with
        | .arr entries => flatten_entries p entries
        | _ => []) = flatten_entries "action_" es := fun _ => rfl
  rw [hmid, hmid]
  have hskip : flatten_entries "action_" (l1 ++ .obj fields :: l2)
      = flatten_entries "action_" (l1 ++ l2) := by
    unfold flatten_entries
    rw [List.filterMap_append, List.filterMap_append, List.filterMap_cons]
    rcases hbad with h | h
    · simp [h]
    · cases hat : alist_lookup fields "action_type" with
      | none => simp [hat]
      | some v => cases v <;> simp [hat, h]
  rw [hskip]

/-- C7 witness: `actions: [{"value": "3"}, {"action_type": "lead",
"value": "2"}]` — the entry missing `action_type` is skipped, the
well-formed entry and the other key survive. -/
theorem malformed_entry_tolerance_witness :
    (alist_lookup [(("value" : String), JVal.str "3")] "action_type" = none
      ∨ alist_lookup [(("value" : String), JVal.str "3")] "value" = none) ∧
    flatten_record [("spend", .str "9"), ("actions", .arr
        [.obj [("value", .str "3")],
         .obj [("action_type", .str "lead"), ("value", .str "2")]])]
      = [("spend", JVal.str "9"), ("action_lead", JVal.str "2")] := by
  refine ⟨Or.inl rfl, ?_⟩
  have h := malformed_entry_tolerance [("spend", .str "9")] [] []
    [.obj [("action_type", .str "lead"), ("value", .str "2")]]
    [("value", .str "3")] (Or.inl rfl)
  simpa using h

/-- C8 — The `flatten_actions` flag of the insights tool: whenever the
client's paginated fetch succeeds with aggregated rows `rows`, the tool
returns `convert_numeric_fields (process_insights rows)` — flattening
first, then numeric conversion — when the flag is `true`, and returns
`rows` unmodified, with neither transform applied, when the flag is
`false`. -/
theorem insights_flag_controls_normalization (server : RawServer)
    (token : String) (fuel : Nat)
    (account_id start_date end_date : String) (fields : List String)
    (level : String) (breakdowns : Option (List String))
    (time_increment : Option String)
    (campaign_ids adset_ids ad_ids : Option (List String))
    (rows : List Record) (reqs : List (String × Params))
    (h : get_account_insights server token fuel account_id start_date
        end_date fields level breakdowns time_increment campaign_ids
        adset_ids ad_ids 100 = .ok rows reqs) :
    get_account_insights_tool server token fuel account_id start_date
        end_date fields level breakdowns time_increment campaign_ids
        adset_ids ad_ids true
      = .rows (convert_numeric_fields (process_insights rows)) ∧
    get_account_insights_tool server token fuel account_id start_date
        end_date fields level breakdowns time_increment campaign_ids
        adset_ids ad_ids false
      = .rows rows := by
  constructor <;> (unfold get_account_insights_tool; rw [h]; rfl)

/-- A one-page upstream used by witnesses: every request is answered with
the given rows and no `paging` object. -/
def one_page_server (rows : List Record) : RawServer := fun _ _ =>
  .ok { data? := some rows, paging? := none }

/-- C8 witness: a one-page upstream; with the flag set the transforms are
applied to the aggregated rows, without it the raw row comes back. -/
theorem insights_flag_controls_normalization_witness :
    get_account_insights_tool (one_page_server [[("spend", .str "1")]])
        "tok" 0 "act_1" "2025-01-01" "2025-01-31" ["spend"] "account"
        none none none none none true
      = .rows (convert_numeric_fields
          (process_insights [[("spend", .str "1")]])) ∧
    get_account_insights_tool (one_page_server [[("spend", .str "1")]])
        "tok" 0 "act_1" "2025-01-01" "2025-01-31" ["spend"] "account"
        none none none none none false
      = .rows [[("spend", JVal.str "1")]] :=
  insights_flag_controls_normalization
    (one_page_server [[("spend", .str "1")]])
    "tok" 0 "act_1" "2025-01-01" "2025-01-31" ["spend"] "account"
    none none none none none [[("spend", .str "1")]]
    [("/act_1/insights", insights_params "2025-01-01" "2025-01-31"
      ["spend"] "account" none none none none none 100)] rfl

/-- The pagination loop stops, returning the accumulator and trace, when
the current response carries no `next` URL. -/
theorem paginate_go_stop {server : RawServer} {token endpoint : String}
    {fuel : Nat} {resp : FBResponse} {acc : List Record}
    {reqs : List (String × Params)} (hnu : nextUrlOf resp = none) :
    paginate_go server token endpoint fuel resp acc reqs = .ok acc reqs := by
  obtain ⟨d, p⟩ := resp
  cases p with
  | none => cases fuel <;> rfl
  | some paging =>
    obtain ⟨n⟩ := paging
    cases n with
    | none => cases fuel <;> rfl
    | some u => simp [nextUrlOf] at hnu

/-- With a `next` URL present and no step budget left, the embedded loop
reports `outOfFuel` (the Python loop would keep iterating). -/
theorem paginate_go_zero {server : RawServer} {token endpoint : String}
    {resp : FBResponse} {acc : List Record}
    {reqs : List (String × Params)} {u : String}
    (hnu : nextUrlOf resp = some u) :
    paginate_go server token endpoint 0 resp acc reqs = .outOfFuel := by
  obtain ⟨d, p⟩ := resp
  cases p with
  | none => simp [nextUrlOf] at hnu
  | some paging =>
    obtain ⟨n⟩ := paging
    cases n with
    | none => simp [nextUrlOf] at hnu
    | some u' => rfl

/-- With a `next` URL present, one loop iteration parses it into fresh
parameters, requests the same endpoint with them, and continues with the
new response, extended accumulator, and extended request trace. -/
theorem paginate_go_next {server : RawServer} {token endpoint : String}
    {fuel : Nat} {resp : FBResponse} {acc : List Record}
    {reqs : List (String × Params)} {u : String}
    (hnu : nextUrlOf resp = some u) :
    paginate_go server token endpoint (fuel + 1) resp acc reqs =
      match make_request server token endpoint (parse_next_params u) with
      | .error msg => .httpFail msg
      | .ok response' =>
          paginate_go server token endpoint fuel response'
            (acc ++ response'.data?.getD [])
            (reqs ++ [(endpoint, parse_next_params u)]) := by
  obtain ⟨d, p⟩ := resp
  cases p with
  | none => simp [nextUrlOf] at hnu
  | some paging =>
    obtain ⟨n⟩ := paging
    cases n with
    | none => simp [nextUrlOf] at hnu
    | some u' =>
      simp only [nextUrlOf] at hnu
      cases hnu
      rfl

/-- An invariant of the pagination loop: a successful run's request trace
extends the already-recorded trace by a cursor chain starting from the
current response. -/
theorem paginate_go_chain (server : RawServer) (token endpoint : String) :
    ∀ (fuel : Nat) (resp : FBResponse) (acc : List Record)
      (reqs trace : List (String × Params)) (rows : List Record),
      paginate_go server token endpoint fuel resp acc reqs = .ok rows trace →
      ∃ tail, trace = reqs ++ tail
        ∧ CursorChain server token endpoint resp tail := by
  intro fuel
  induction fuel with
  | zero =>
    intro resp acc reqs trace rows h
    cases hnu : nextUrlOf resp with
    | none =>
      rw [paginate_go_stop hnu] at h
      injection h with h1 h2
      exact ⟨[], by rw [← h2]; simp, .last hnu⟩
    | some u =>
      rw [paginate_go_zero hnu] at h
      exact PagerOutcome.noConfusion h
  | succ fuel ih =>
    intro resp acc reqs trace rows h
    cases hnu : nextUrlOf resp with
    | none =>
      rw [paginate_go_stop hnu] at h
      injection h with h1 h2
      exact ⟨[], by rw [← h2]; simp, .last hnu⟩
    | some u =>
      rw [paginate_go_next hnu] at h
      cases hreq : make_request server token endpoint
          (parse_next_params u) with
      | error msg => rw [hreq] at h; exact PagerOutcome.noConfusion h
      | ok resp' =>
        rw [hreq] at h
        obtain ⟨tail, htr, hchain⟩ := ih resp' _ _ trace rows h
        refine ⟨(endpoint, parse_next_params u) :: tail, ?_,
          .step hnu hreq hchain⟩
        rw [htr]
        simp

/-- C3 — Cursor-following discipline: on every successful paginated fetch,
the trace of issued requests starts with the caller's initial request, and
every follow-up request is issued against the *same* endpoint with a
parameter mapping obtained solely by parsing the query string of the
`next` URL carried by the previous response — the previous parameters are
discarded and contribute nothing.  The loop stops exactly when a response
lacks a `paging` object or its `paging` lacks `next` (`nextUrlOf` is
`none`): after it no further request occurs in the trace. -/
theorem cursor_following_discipline (server : RawServer)
    (token endpoint : String) (params : Params) (fuel : Nat)
    (rows : List Record) (trace : List (String × Params))
    (h : make_paginated_request server token fuel endpoint params
      = .ok rows trace) :
    ∃ (resp : FBResponse) (tail : List (String × Params)),
      make_request server token endpoint params = .ok resp ∧
      trace = (endpoint, params) :: tail ∧
      CursorChain server token endpoint resp tail := by
  unfold make_paginated_request at h
  cases hreq : make_request server token endpoint params with
  | error msg => rw [hreq] at h; cases h
  | ok resp =>
    rw [hreq] at h
    obtain ⟨tail, htr, hchain⟩ :=
      paginate_go_chain server token endpoint fuel resp _ _ trace rows h
    exact ⟨resp, tail, rfl, by simpa using htr, hchain⟩

/-- C3 witness: a single-page upstream — the trace is the initial request
alone and the chain is empty because the response carries no `paging`. -/
theorem cursor_following_discipline_witness :
    ∃ (resp : FBResponse) (tail : List (String × Params)),
      make_request (fun _ _ => .ok { data? := some [], paging? := none })
          "tok" "/me/adaccounts" [] = .ok resp ∧
      ([(("/me/adaccounts" : String), ([] : Params))]
        = ("/me/adaccounts", ([] : Params)) :: tail) ∧
      CursorChain (fun _ _ => .ok { data? := some [], paging? := none })
        "tok" "/me/adaccounts" resp tail :=
  cursor_following_discipline
    (fun _ _ => .ok { data? := some [], paging? := none })
    "tok" "/me/adaccounts" [] 0 [] [("/me/adaccounts", [])] rfl

/-- `fill_data_response` does not touch the pagination descriptor. -/
theorem nextUrlOf_fill (r : FBResponse) :
    nextUrlOf (fill_data_response r) = nextUrlOf r := rfl

/-- The rows contributed by a response are unchanged by filling in a
missing `data` key with an empty list. -/
theorem data_getD_fill (r : FBResponse) :
    (fill_data_response r).data?.getD [] = r.data?.getD [] := rfl

/-- `make_request` against the filled server only fills the body of a
successful response. -/
theorem make_request_fill (server : RawServer) (token endpoint : String)
    (params : Params) :
    make_request (fill_data_server server) token endpoint params =
      match make_request server token endpoint params with
      | .ok r => .ok (fill_data_response r)
      | .error msg => .error msg := by
  cases hres : server endpoint (alist_set params "access_token" token) with
  | ok r => simp [make_request, fill_data_server, hres]
  | httpError e b => simp [make_request, fill_data_server, hres]

/-- The pagination loop cannot distinguish the filled server from the
original one, given current responses with the same pagination state. -/
theorem paginate_go_fill (server : RawServer) (token endpoint : String) :
    ∀ (fuel : Nat) (r1 r2 : FBResponse), r1.paging? = r2.paging? →
      ∀ (acc : List Record) (reqs : List (String × Params)),
      paginate_go (fill_data_server server) token endpoint fuel r1 acc reqs
        = paginate_go server token endpoint fuel r2 acc reqs := by
  intro fuel
  induction fuel with
  | zero =>
    intro r1 r2 hpag acc reqs
    have hnu12 : nextUrlOf r1 = nextUrlOf r2 := by
      unfold nextUrlOf; rw [hpag]
    cases hnu : nextUrlOf r2 with
    | none => rw [paginate_go_stop (hnu12.trans hnu), paginate_go_stop hnu]
    | some u => rw [paginate_go_zero (hnu12.trans hnu), paginate_go_zero hnu]
  | succ fuel ih =>
    intro r1 r2 hpag acc reqs
    have hnu12 : nextUrlOf r1 = nextUrlOf r2 := by
      unfold nextUrlOf; rw [hpag]
    cases hnu : nextUrlOf r2 with
    | none => rw [paginate_go_stop (hnu12.trans hnu), paginate_go_stop hnu]
    | some u =>
      rw [paginate_go_next (hnu12.trans hnu), paginate_go_next hnu,
        make_request_fill]
      cases hreq : make_request server token endpoint
          (parse_next_params u) with
      | error msg => rfl
      | ok resp' =>
        show paginate_go (fill_data_server server) token endpoint fuel
            (fill_data_response resp') (acc ++ _) _ = _
        rw [data_getD_fill]
        exact ih (fill_data_response resp') resp' rfl _ _

/-- A two-page upstream whose first page has no `data` key at all but
does carry a `paging.next` cursor. -/
def missing_data_server : RawServer := fun _ ps =>
  match alist_lookup ps "after" with
  | some _ => .ok ⟨some [[("id", .str "2")]], some ⟨none⟩⟩
  | none => .ok ⟨none, some ⟨some "https://fb/next?after=x"⟩⟩

/-- C10 — A response lacking a `data` key is treated as an empty page:
running the pager against any upstream is indistinguishable from running
it against the same upstream with every missing `data` key replaced by an
explicit empty list — so such a page contributes zero rows, raises
nothing, and pagination still follows its `paging.next` URL.  Concretely,
a first page with no `data` key but a `next` cursor yields exactly the
second page's rows, with both requests issued. -/
theorem missing_data_treated_as_empty_page :
    (∀ (server : RawServer) (token : String) (fuel : Nat)
      (endpoint : String) (params : Params),
      make_paginated_request (fill_data_server server) token fuel endpoint
          params
        = make_paginated_request server token fuel endpoint params) ∧
    make_paginated_request missing_data_server "tok" 5 "/e" []
      = .ok [[("id", JVal.str "2")]]
          [("/e", []), ("/e", [("after", "x")])] := by
  constructor
  · intro server token fuel endpoint params
    unfold make_paginated_request
    rw [make_request_fill]
    cases hreq : make_request server token endpoint params with
    | error msg => rfl
    | ok resp =>
      show paginate_go (fill_data_server server) token endpoint fuel
          (fill_data_response resp) _ _ = _
      rw [data_getD_fill]
      exact paginate_go_fill server token endpoint fuel
        (fill_data_response resp) resp rfl _ _
  · rfl

/-! ## Parsing the chain cursor URLs -/

theorem afterFirst_append_cons (sep : Char) (l1 l2 : List Char)
    (h : ∀ c ∈ l1, c ≠ sep) :
    afterFirst sep (l1 ++ sep :: l2) = some l2 := by
  induction l1 with
  | nil => simp [afterFirst]
  | cons c cs ih =>
    have hc : c ≠ sep := h c (List.mem_cons_self c cs)
    simp only [List.cons_append, afterFirst, if_neg hc]
    exact ih fun a ha => h a (List.mem_cons_of_mem c ha)

theorem takeWhile_append_all (p : Char → Bool) (l1 l2 : List Char)
    (h : ∀ c ∈ l1, p c = true) :
    (l1 ++ l2).takeWhile p = l1 ++ l2.takeWhile p := by
  induction l1 with
  | nil => rfl
  | cons c cs ih =>
    rw [List.cons_append, List.takeWhile_cons,
      h c (List.mem_cons_self c cs), List.cons_append,
      ih fun a ha => h a (List.mem_cons_of_mem c ha)]
    rfl

theorem takeWhile_append_stop (p : Char → Bool) (l1 l2 : List Char)
    (c0 : Char) (h : ∀ c ∈ l1, p c = true) (hc0 : p c0 = false) :
    (l1 ++ c0 :: l2).takeWhile p = l1 := by
  rw [takeWhile_append_all p l1 _ h, List.takeWhile_cons, hc0]
  simp

theorem splitOnCharAux_no_sep (sep : Char) (l : List Char)
    (h : ∀ c ∈ l, c ≠ sep) :
    ∀ acc, splitOnCharAux sep l acc = [acc.reverse ++ l] := by
  induction l with
  | nil => intro acc; simp [splitOnCharAux]
  | cons c cs ih =>
    intro acc
    have hc : c ≠ sep := h c (List.mem_cons_self c cs)
    simp only [splitOnCharAux, if_neg hc]
    rw [ih (fun a ha => h a (List.mem_cons_of_mem c ha)) (c :: acc)]
    simp

theorem splitOnChar_no_sep (sep : Char) (l : List Char)
    (h : ∀ c ∈ l, c ≠ sep) : splitOnChar sep l = [l] := by
  rw [splitOnChar, splitOnCharAux_no_sep sep l h []]
  rfl

theorem unquote_plus_fuel_clean (l : List Char)
    (h : ∀ c ∈ l, c ≠ '%' ∧ c ≠ '+') :
    ∀ fuel, unquote_plus_fuel fuel l = l := by
  induction l with
  | nil => intro fuel; cases fuel <;> rfl
  | cons c cs ih =>
    intro fuel
    cases fuel with
    | zero => rfl
    | succ fuel =>
      have hc := h c (List.mem_cons_self c cs)
      simp only [unquote_plus_fuel, if_neg hc.1, if_neg hc.2]
      rw [ih (fun a ha => h a (List.mem_cons_of_mem c ha)) fuel]

theorem unquote_plus_clean (l : List Char)
    (h : ∀ c ∈ l, c ≠ '%' ∧ c ≠ '+') : unquote_plus l = l :=
  unquote_plus_fuel_clean l h l.length

theorem qsl_pair_clean (name value : List Char)
    (hname : ∀ c ∈ name, c ≠ '=') (hval : value ≠ []) :
    qsl_pair (name ++ '=' :: value)
      = some (name, value) := by
  unfold qsl_pair
  rw [afterFirst_append_cons '=' _ _ hname]
  show (if value = [] then none
    else some ((name ++ '=' :: value).takeWhile (fun c => c != '='), value))
    = some (name, value)
  rw [if_neg hval, takeWhile_append_stop _ _ _ _
    (fun c hc => by simpa using hname c hc) (by decide)]

/-- Parsing the `paging.next` URL of page `j` recovers exactly the cursor
parameter for page `j`. -/
theorem parse_next_params_chainUrl (j : Nat) (hj : 1 ≤ j) :
    parse_next_params (chainUrl j) = [("after", aStr j)] := by
  have hrep : ∀ c ∈ List.replicate j 'a', c = 'a' :=
    fun c hc => List.eq_of_mem_replicate hc
  have hdata : (chainUrl j).data
      = "https://fb/next".data
        ++ '?' :: ("after".data ++ '=' :: List.replicate j 'a') := rfl
  unfold parse_next_params urlparse_query
  rw [hdata]
  have h1 : (("https://fb/next".data
      ++ '?' :: ("after".data ++ '=' :: List.replicate j 'a')).takeWhile
        (fun c => c != '#'))
      = "https://fb/next".data
        ++ '?' :: ("after".data ++ '=' :: List.replicate j 'a') := by
    rw [List.takeWhile_eq_self_iff]
    intro c hc
    rcases List.mem_append.1 hc with h | h
    · exact (by decide : ∀ c ∈ "https://fb/next".data, (c != '#') = true) c h
    · rcases List.mem_cons.1 h with rfl | h
      · decide
      · rcases List.mem_append.1 h with h | h
        · exact (by decide : ∀ c ∈ "after".data, (c != '#') = true) c h
        · rcases List.mem_cons.1 h with rfl | h
          · decide
          · rw [hrep c h]; decide
  rw [h1, afterFirst_append_cons '?' _ _
    (by decide : ∀ c ∈ "https://fb/next".data, c ≠ '?')]
  simp only [Option.getD_some]
  unfold parse_qsl
  rw [splitOnChar_no_sep '&' _ ?hamp]
  case hamp =>
    intro c hc
    rcases List.mem_append.1 hc with h | h
    · exact (by decide : ∀ c ∈ "after".data, c ≠ '&') c h
    · rcases List.mem_cons.1 h with rfl | h
      · decide
      · rw [hrep c h]; decide
  have hval : List.replicate j 'a' ≠ [] := by
    intro hnil
    have := congrArg List.length hnil
    simp at this
    omega
  have hfield : (fun f => (qsl_pair f).map fun p =>
      (String.mk (unquote_plus p.1), String.mk (unquote_plus p.2)))
        ("after".data ++ '=' :: List.replicate j 'a')
      = some ("after", aStr j) := by
    show ((qsl_pair ("after".data ++ '=' :: List.replicate j 'a')).map
      fun p => (String.mk (unquote_plus p.1), String.mk (unquote_plus p.2)))
      = some ("after", aStr j)
    rw [qsl_pair_clean "after".data _
      (by decide : ∀ c ∈ "after".data, c ≠ '=') hval]
    show some (String.mk (unquote_plus "after".data),
        String.mk (unquote_plus (List.replicate j 'a')))
      = some ("after", aStr j)
    rw [unquote_plus_clean (List.replicate j 'a')
      (fun c hc => by rw [hrep c hc]; exact ⟨by decide, by decide⟩)]
    rfl
  simp only [List.filterMap_cons, List.filterMap_nil, hfield]
  rfl

/-- Decoding the cursor of page `j` yields `j`. -/
theorem decode_after_aStr (j : Nat) (hj : 1 ≤ j) :
    decode_after (aStr j) = some j := by
  have hdata : (aStr j).data = List.replicate j 'a' := rfl
  have hne : List.replicate j 'a' ≠ [] := by
    intro hnil
    have := congrArg List.length hnil
    simp at this
    omega
  unfold decode_after
  have hcond : (aStr j).data ≠ []
      ∧ (aStr j).data = List.replicate (aStr j).data.length 'a' := by
    refine ⟨by rw [hdata]; exact hne, ?_⟩
    simp [hdata]
  rw [if_pos hcond]
  show some ((aStr j).data.length) = some j
  rw [hdata, List.length_replicate]

/-! ## Running the pager against the chain upstream -/

/-- The initial request (no `after` parameter) yields page 0. -/
theorem make_request_chain_initial (pages : List (List Record))
    (failAt : Option Nat) (tok : String) (hfail : failAt ≠ some 0)
    (hlen : 0 < pages.length) :
    make_request (chainServer pages failAt) tok chainEndpoint []
      = .ok (chainResponse pages 0) := by
  have h1 : (chainServer pages failAt) chainEndpoint
      (alist_set [] "access_token" tok) = chainServe pages failAt 0 := rfl
  unfold make_request
  rw [h1]
  unfold chainServe
  rw [if_neg hfail, if_pos hlen]

/-- A request carrying the cursor of an in-range, non-failing page `j`
yields page `j`. -/
theorem make_request_chain_next (pages : List (List Record))
    (failAt : Option Nat) (tok : String) (j : Nat) (hj : 1 ≤ j)
    (hfail : failAt ≠ some j) (hlen : j < pages.length) :
    make_request (chainServer pages failAt) tok chainEndpoint
        [("after", aStr j)]
      = .ok (chainResponse pages j) := by
  have h1 : (chainServer pages failAt) chainEndpoint
      (alist_set [("after", aStr j)] "access_token" tok)
      = match decode_after (aStr j) with
        | some i => chainServe pages failAt i
        | none => .httpError "400 Client Error" .notJson := rfl
  unfold make_request
  rw [h1, decode_after_aStr j hj]
  show (match chainServe pages failAt j with
    | .ok body => Except.ok body
    | .httpError errStr body =>
        Except.error (format_http_error errStr body)) = _
  unfold chainServe
  rw [if_neg hfail, if_pos hlen]

/-- A request for the designated failing page raises the formatted
upstream error. -/
theorem make_request_chain_fail (pages : List (List Record)) (tok : String)
    (j : Nat) (hj : 1 ≤ j) :
    make_request (chainServer pages (some j)) tok chainEndpoint
        [("after", aStr j)]
      = .error chainFailMsg := by
  have h1 : (chainServer pages (some j)) chainEndpoint
      (alist_set [("after", aStr j)] "access_token" tok)
      = match decode_after (aStr j) with
        | some i => chainServe pages (some j) i
        | none => .httpError "400 Client Error" .notJson := rfl
  unfold make_request
  rw [h1, decode_after_aStr j hj]
  show (match chainServe pages (some j) j with
    | .ok body => Except.ok body
    | .httpError errStr body =>
        Except.error (format_http_error errStr body)) = _
  unfold chainServe
  rw [if_pos rfl]
  rfl

/-- The `next` URL of page `j` points at page `j+1` exactly when a page
`j+1` exists. -/
theorem nextUrlOf_chainResponse (pages : List (List Record)) (j : Nat) :
    nextUrlOf (chainResponse pages j)
      = if j + 1 < pages.length then some (chainUrl (j + 1)) else none := rfl

/-- Crawling the chain from page `j` onward collects the rows of pages
`j+1, …, N-1` behind the accumulator and appends one cursor request per
remaining page to the trace, provided no remaining page fails and the
step budget suffices. -/
theorem paginate_go_chainServer (pages : List (List Record))
    (failAt : Option Nat) (tok : String) :
    ∀ (fuel j : Nat) (acc : List Record) (reqs : List (String × Params)),
      j < pages.length →
      pages.length - (j + 1) ≤ fuel →
      (∀ k, j < k → failAt ≠ some k) →
      paginate_go (chainServer pages failAt) tok chainEndpoint fuel
          (chainResponse pages j) acc reqs
        = .ok (acc ++ (pages.drop (j + 1)).flatten)
            (reqs ++ (List.range' (j + 1) (pages.length - (j + 1))).map
              (fun i => (chainEndpoint, [("after", aStr i)]))) := by
  intro fuel
  induction fuel with
  | zero =>
    intro j acc reqs hj hfuel hok
    have hstop : ¬ (j + 1 < pages.length) := by omega
    have hnu : nextUrlOf (chainResponse pages j) = none := by
      rw [nextUrlOf_chainResponse, if_neg hstop]
    rw [paginate_go_stop hnu]
    have hdrop : pages.drop (j + 1) = [] :=
      List.drop_eq_nil_of_le (by omega)
    have hsub : pages.length - (j + 1) = 0 := by omega
    rw [hdrop, hsub]
    simp
  | succ fuel ih =>
    intro j acc reqs hj hfuel hok
    by_cases hnext : j + 1 < pages.length
    · have hnu : nextUrlOf (chainResponse pages j)
          = some (chainUrl (j + 1)) := by
        rw [nextUrlOf_chainResponse, if_pos hnext]
      rw [paginate_go_next hnu, parse_next_params_chainUrl (j + 1)
        (by omega), make_request_chain_next pages failAt tok (j + 1)
        (by omega) (hok (j + 1) (by omega)) hnext]
      show paginate_go (chainServer pages failAt) tok chainEndpoint fuel
          (chainResponse pages (j + 1))
          (acc ++ (chainResponse pages (j + 1)).data?.getD [])
          (reqs ++ [(chainEndpoint, [("after", aStr (j + 1))])]) = _
      have hdata : (chainResponse pages (j + 1)).data?.getD []
          = pages.getD (j + 1) [] := rfl
      rw [hdata, ih (j + 1) _ _ hnext (by omega)
        (fun k hk => hok k (by omega))]
      have hdrop : pages.drop (j + 1)
          = pages.getD (j + 1) [] :: pages.drop (j + 2) := by
        rw [List.getD_eq_getElem pages [] hnext]
        exact List.drop_eq_getElem_cons hnext
      have hsub : pages.length - (j + 1) = (pages.length - (j + 2)) + 1 := by
        omega
      rw [hsub, List.range'_succ, hdrop]
      simp
    · have hnu : nextUrlOf (chainResponse pages j) = none := by
        rw [nextUrlOf_chainResponse, if_neg hnext]
      rw [paginate_go_stop hnu]
      have hdrop : pages.drop (j + 1) = [] :=
        List.drop_eq_nil_of_le (by omega)
      have hsub : pages.length - (j + 1) = 0 := by omega
      rw [hdrop, hsub]
      simp

/-- The request trace of a complete crawl, in head-tail form. -/
theorem chainTrace_eq (pages : List (List Record)) (h : 0 < pages.length) :
    chainTrace pages
      = (chainEndpoint, ([] : Params)) ::
        (List.range' 1 (pages.length - 1)).map
          (fun i => (chainEndpoint, [("after", aStr i)])) := by
  unfold chainTrace
  obtain ⟨n, hn⟩ : ∃ n, pages.length = n + 1 := ⟨pages.length - 1, by omega⟩
  rw [hn, List.range_eq_range', List.range'_succ, List.map_cons]
  rw [show ((0 : Nat) + 1) = 1 from rfl, show (n + 1 - 1) = n from rfl]
  congr 1
  refine List.map_congr_left fun i hi => ?_
  have h1 : 1 ≤ i := (List.mem_range'_1.1 hi).1
  rw [if_neg (by omega : ¬ i = 0)]

/-- C1 — Pagination completeness: against a simulated upstream serving
`N = pages.length` pages of arbitrary sizes chained by `paging.next`
cursors, `_make_paginated_request` returns exactly the concatenation of
all pages' rows — `Σᵢ sᵢ` rows in page order with row order preserved
within each page (`pages.flatten`) — and issues exactly `N` HTTP requests,
whose trace is duplicate-free, so no page is fetched twice. -/
theorem pagination_completeness (pages : List (List Record))
    (hne : 0 < pages.length) (tok : String) (fuel : Nat)
    (hfuel : pages.length ≤ fuel + 1) :
    make_paginated_request (chainServer pages none) tok fuel chainEndpoint []
        = .ok pages.flatten (chainTrace pages)
      ∧ (chainTrace pages).length = pages.length
      ∧ (chainTrace pages).Nodup := by
  refine ⟨?_, by simp [chainTrace], ?_⟩
  · unfold make_paginated_request
    rw [make_request_chain_initial pages none tok (by simp) hne]
    show paginate_go (chainServer pages none) tok chainEndpoint fuel
      (chainResponse pages 0) (pages.getD 0 []) [(chainEndpoint, [])] = _
    rw [paginate_go_chainServer pages none tok fuel 0 _ _ hne (by omega)
      (fun k _ => by simp)]
    have hrows : pages.getD 0 [] ++ (pages.drop (0 + 1)).flatten
        = pages.flatten := by
      rw [List.getD_eq_getElem pages [] hne]
      have hcons : pages = pages[0] :: pages.drop 1 := by
        have h := List.drop_eq_getElem_cons (l := pages) (n := 0) hne
        simpa using h
      conv_rhs => rw [hcons]
      rw [List.flatten_cons]
    rw [hrows, chainTrace_eq pages hne]
    simp
  · unfold chainTrace
    refine (List.nodup_range pages.length).map_on ?_
    intro x hx y hy hf
    have hsnd := congrArg Prod.snd hf
    by_cases hx0 : x = 0 <;> by_cases hy0 : y = 0
    · exact hx0.trans hy0.symm
    · exfalso
      rw [if_pos hx0, if_neg hy0] at hsnd
      exact (List.cons_ne_nil _ _) hsnd.symm
    · exfalso
      rw [if_neg hx0, if_pos hy0] at hsnd
      exact (List.cons_ne_nil _ _) hsnd
    · rw [if_neg hx0, if_neg hy0] at hsnd
      have ha : aStr x = aStr y := by
        have := congrArg (fun l : Params => (l.headD ("", "")).2) hsnd
        simpa using this
      have hdx : (aStr x).data = List.replicate x 'a' := rfl
      have hdy : (aStr y).data = List.replicate y 'a' := rfl
      have := congrArg (fun s : String => s.data.length) ha
      simp only [hdx, hdy, List.length_replicate] at this
      exact this

/-- Two concrete pages of sizes 1 and 2 for the C1 witness. -/
def c1pages : List (List Record) :=
  [[[("id", JVal.str "1")]],
   [[("id", JVal.str "2")], [("id", JVal.str "3")]]]

/-- C1 witness: the chain of two pages (sizes 1 and 2) is crawled with a
step budget of one extra request. -/
theorem pagination_completeness_witness :
    make_paginated_request (chainServer c1pages none) "tok" 1 chainEndpoint
        []
      = .ok c1pages.flatten (chainTrace c1pages)
      ∧ (chainTrace c1pages).length = c1pages.length
      ∧ (chainTrace c1pages).Nodup :=
  pagination_completeness c1pages (by decide) "tok" 1 (by decide)

/-- Crawling the chain from page `j` runs into the failing page `k > j`
(within the step budget) and propagates the formatted error. -/
theorem paginate_go_chainServer_fail (pages : List (List Record)) (k : Nat)
    (tok : String) (hk1 : 1 ≤ k) (hklen : k < pages.length) :
    ∀ (fuel j : Nat) (acc : List Record) (reqs : List (String × Params)),
      j < k → k - j ≤ fuel →
      paginate_go (chainServer pages (some k)) tok chainEndpoint fuel
          (chainResponse pages j) acc reqs = .httpFail chainFailMsg := by
  intro fuel
  induction fuel with
  | zero => intro j acc reqs hj hfuel; omega
  | succ fuel ih =>
    intro j acc reqs hj hfuel
    have hnext : j + 1 < pages.length := by omega
    have hnu : nextUrlOf (chainResponse pages j)
        = some (chainUrl (j + 1)) := by
      rw [nextUrlOf_chainResponse, if_pos hnext]
    rw [paginate_go_next hnu, parse_next_params_chainUrl (j + 1) (by omega)]
    by_cases hjk : j + 1 = k
    · subst hjk
      rw [make_request_chain_fail pages tok (j + 1) (by omega)]
    · rw [make_request_chain_next pages (some k) tok (j + 1) (by omega)
        (fun hEq => hjk (Option.some.inj hEq).symm) hnext]
      exact ih (j + 1) _ _ (by omega) (by omega)

/-- C2 — All-or-nothing on failure: when any page `k` of the chain
(first or later) answers with a non-2xx status, the whole paginated fetch
propagates the formatted error, and there exist no rows and no trace for
which it returns success — rows accumulated from the pages before `k` are
never returned to the caller. -/
theorem all_or_nothing_on_failure (pages : List (List Record)) (k : Nat)
    (hk : k < pages.length) (tok : String) (fuel : Nat) (hfuel : k ≤ fuel) :
    make_paginated_request (chainServer pages (some k)) tok fuel
        chainEndpoint [] = .httpFail chainFailMsg
      ∧ ∀ (rows : List Record) (reqs : List (String × Params)),
        make_paginated_request (chainServer pages (some k)) tok fuel
          chainEndpoint [] ≠ .ok rows reqs := by
  have hmain : make_paginated_request (chainServer pages (some k)) tok fuel
      chainEndpoint [] = .httpFail chainFailMsg := by
    unfold make_paginated_request
    rcases Nat.eq_zero_or_pos k with rfl | hk1
    · have h0 : make_request (chainServer pages (some 0)) tok chainEndpoint
          [] = .error chainFailMsg := rfl
      rw [h0]
    · rw [make_request_chain_initial pages (some k) tok
        (fun hEq => by have := Option.some.inj hEq; omega) (by omega)]
      show paginate_go (chainServer pages (some k)) tok chainEndpoint fuel
        (chainResponse pages 0) (pages.getD 0 []) [(chainEndpoint, [])] = _
      exact paginate_go_chainServer_fail pages k tok hk1 hk fuel 0 _ _
        hk1 (by omega)
  refine ⟨hmain, fun rows reqs hcontra => ?_⟩
  rw [hmain] at hcontra
  exact PagerOutcome.noConfusion hcontra

/-- Three one-row pages for the C2 witness. -/
def c2pages : List (List Record) :=
  [[[("id", JVal.str "1")]], [[("id", JVal.str "2")]],
   [[("id", JVal.str "3")]]]

/-- C2 witness: page 2 of 3 (index 1) fails; the fetch propagates the
formatted upstream error and returns no rows. -/
theorem all_or_nothing_on_failure_witness :
    make_paginated_request (chainServer c2pages (some 1)) "tok" 2
        chainEndpoint [] = .httpFail chainFailMsg
      ∧ ∀ (rows : List Record) (reqs : List (String × Params)),
        make_paginated_request (chainServer c2pages (some 1)) "tok" 2
          chainEndpoint [] ≠ .ok rows reqs :=
  all_or_nothing_on_failure c2pages 1 (by decide) "tok" 2 (by decide)

end FBAds
